import Mathlib

set_option linter.unusedVariables false

/-!
Verification development for the campaign-competition bot (src/main.py).
The core logic is embedded shallowly: the time codec (parse_time, format_time),
the scoring table (get_points_for_position), the leaderboard and standings
computations, and the validated submit/register operations over an explicit
store state. Machine strings are List Char based Lean strings; Python ints are
Int, nonnegative counters are Nat.
-/

/-! ## Character and digit-string utilities -/

-- Python str.strip removes these ASCII whitespace characters.
def isPySpace (c : Char) : Bool :=
  c = ' ' ∨ c = '\t' ∨ c = '\n' ∨ c = '\r' ∨ c = Char.ofNat 11 ∨ c = Char.ofNat 12

-- Model of Python str.strip on a character list.
def pyStrip (cs : List Char) : List Char :=
  ((cs.dropWhile isPySpace).reverse.dropWhile isPySpace).reverse

-- Model of time_str.strip().replace(",", ".") from parse_time (main.py line 391).
def pyNormalize (cs : List Char) : List Char :=
  (pyStrip cs).map (fun c => if c = ',' then '.' else c)

-- Numeric value of a decimal digit string, the model of Python int() on it.
def digitsToNat (cs : List Char) : Nat :=
  cs.foldl (fun a c => 10 * a + (c.toNat - 48)) 0

def digitChar (n : Nat) : Char := Char.ofNat (48 + n)

-- Decimal rendering of a natural number, fuel-structured so it reduces.
def natDigitsAux : Nat → Nat → List Char
  | 0, _ => []
  | fuel + 1, n =>
    if n < 10 then [digitChar n]
    else natDigitsAux fuel (n / 10) ++ [digitChar (n % 10)]

-- Model of Python str(n) for a nonnegative int n.
def natDigits (n : Nat) : List Char := natDigitsAux (n + 1) n

-- Model of the f-string zero padding {n:02d} and {n:03d}.
def padZeros (w : Nat) (cs : List Char) : List Char :=
  List.replicate (w - cs.length) '0' ++ cs

-- Model of ms.ljust(3, "0")[:3] from parse_time (main.py lines 397, 404).
def ljust3 (cs : List Char) : List Char :=
  (cs ++ List.replicate (3 - cs.length) '0').take 3

/-! ## Time codec (parse_time, format_time; main.py lines 389-421) -/

/-- Model of the anchored regex (\d+):(\d{1,2})[:.](\d{1,3}) match of parse_time
(main.py lines 394-398). The greedy digit groups are forced to be the maximal
digit runs because each group is followed by a non-digit or the end, so the
backtracking regex is compiled to takeWhile/dropWhile splits. -/
def matchShape1 (cs : List Char) : Option Nat :=
  let d1 := cs.takeWhile Char.isDigit
  let r1 := cs.dropWhile Char.isDigit
  let r2 := r1.tail
  let d2 := r2.takeWhile Char.isDigit
  let r3 := r2.dropWhile Char.isDigit
  let r4 := r3.tail
  let d3 := r4.takeWhile Char.isDigit
  if 1 ≤ d1.length ∧ r1.head? = some ':'
      ∧ (d2.length = 1 ∨ d2.length = 2) ∧ (r3.head? = some ':' ∨ r3.head? = some '.')
      ∧ 1 ≤ d3.length ∧ d3.length ≤ 3 ∧ r4.dropWhile Char.isDigit = []
  then some (digitsToNat d1 * 60000 + digitsToNat d2 * 1000 + digitsToNat (ljust3 d3))
  else none

/-- Model of the anchored regex (\d+)\.(\d{1,3}) match of parse_time
(main.py lines 401-405). -/
def matchShape2 (cs : List Char) : Option Nat :=
  let d1 := cs.takeWhile Char.isDigit
  let r1 := cs.dropWhile Char.isDigit
  let r2 := r1.tail
  let d2 := r2.takeWhile Char.isDigit
  if 1 ≤ d1.length ∧ r1.head? = some '.'
      ∧ 1 ≤ d2.length ∧ d2.length ≤ 3 ∧ r2.dropWhile Char.isDigit = []
  then some (digitsToNat d1 * 1000 + digitsToNat (ljust3 d2))
  else none

/-- Model of the anchored regex (\d+) match of parse_time (main.py lines 408-410). -/
def matchShape3 (cs : List Char) : Option Nat :=
  if 1 ≤ cs.length ∧ cs.dropWhile Char.isDigit = []
  then some (digitsToNat cs)
  else none

/-- Model of parse_time (main.py lines 389-412): strip, replace comma by period,
then try the three anchored shapes in order; None becomes Option.none. -/
def parse_time (s : String) : Option Nat :=
  let cs := pyNormalize s.data
  (matchShape1 cs).orElse fun _ => (matchShape2 cs).orElse fun _ => matchShape3 cs

/-- Model of format_time (main.py lines 414-421). -/
def format_time (ms : Int) : String :=
  if ms ≤ 0 then ("00:00.000" : String)
  else
    let m := ms.toNat
    ⟨padZeros 2 (natDigits (m / 60000)) ++
      ':' :: (padZeros 2 (natDigits (m % 60000 / 1000)) ++
        '.' :: padZeros 3 (natDigits (m % 1000)))⟩

/-! ## Scoring table (get_points_for_position; main.py lines 380-387) -/

def point_values : List Int := [25, 18, 15, 12, 10, 8, 6, 4, 2, 1]

/-- Model of the Python list subscript l[i]: negative indices count from the
end, an index out of range raises IndexError, modelled as none. -/
def pyListGet (l : List Int) (i : Int) : Option Int :=
  let j := if i < 0 then i + l.length else i
  if 0 ≤ j ∧ j < l.length then l.get? j.toNat else none

/-- Model of get_points_for_position (main.py lines 380-387); none models an
uncaught IndexError from the subscript. -/
def get_points_for_position (position : Int) : Option Int :=
  if position = 0 then some 0
  else if position ≤ (point_values.length : Int) then pyListGet point_values (position - 1)
  else some 1

/-! ## Data model and store (players and times tables) -/

structure Player where
  discord_id : String
  tm_username : String
deriving DecidableEq

structure TimeEntry where
  discord_id : String
  map_number : Int
  time_ms : Nat
deriving DecidableEq

structure Store where
  players : List Player
  times : List TimeEntry
deriving DecidableEq

-- The fixed competition map table (main.py lines 40-46).
def COMPETITION_MAPS : List (Int × String) :=
  [(1, "ZOOP 01"), (2, "Dirty Swervy 02"), (3, "Cold and Mad 03"),
   (4, "Grassy Guy 04"), (5, "Cold and Mad Pt 2 05")]

def mapNumbers : List Int := COMPETITION_MAPS.map Prod.fst

-- Supabase upsert on the players table, keyed by discord_id.
def upsertPlayer (ps : List Player) (p : Player) : List Player :=
  if ps.any (fun q => q.discord_id = p.discord_id)
  then ps.map (fun q => if q.discord_id = p.discord_id then p else q)
  else ps ++ [p]

-- Supabase upsert on the times table, keyed by (discord_id, map_number).
def upsertTime (ts : List TimeEntry) (e : TimeEntry) : List TimeEntry :=
  if ts.any (fun x => x.discord_id = e.discord_id ∧ x.map_number = e.map_number)
  then ts.map (fun x =>
    if x.discord_id = e.discord_id ∧ x.map_number = e.map_number then e else x)
  else ts ++ [e]

-- The select-by-discord_id query used before writes (main.py line 91).
def findPlayer (st : Store) (discord_id : String) : Option Player :=
  st.players.find? (fun p => p.discord_id = discord_id)

/-! ## Stable sorting

Python sorted() is a stable ascending sort by key. It is modelled by a stable
insertion sort: an element is inserted after every earlier element that is
strictly before it under the comparison lt, so equal-key elements keep their
input order. -/

def insertS {α : Type} (lt : α → α → Bool) (x : α) : List α → List α
  | [] => [x]
  | y :: ys => if lt y x then y :: insertS lt x ys else x :: y :: ys

def ssort {α : Type} (lt : α → α → Bool) : List α → List α
  | [] => []
  | x :: xs => insertS lt x (ssort lt xs)

/-! ## Leaderboard engine (main.py lines 329-378) -/

structure LBRow where
  discord_id : String
  tm_username : String
  time_ms : Nat
deriving DecidableEq

-- The joined, unsorted per-map rows (main.py lines 331-339): the times rows
-- for the map with the username of each owning player joined in.
def mapRows (st : Store) (map_num : Int) : List LBRow :=
  (st.times.filter (fun e => e.map_number = map_num)).map (fun e =>
    { discord_id := e.discord_id
      tm_username := match findPlayer st e.discord_id with
                     | some p => p.tm_username
                     | none => ""
      time_ms := e.time_ms })

def lbLt (a b : LBRow) : Bool := a.time_ms < b.time_ms

/-- Model of get_map_leaderboard (main.py lines 329-341): join then stable
ascending sort by time_ms. -/
def get_map_leaderboard (st : Store) (map_num : Int) : List LBRow :=
  ssort lbLt (mapRows st map_num)

/-- Model of get_player_position (main.py lines 343-349): the 1-based index of
the first leaderboard row of the player, 0 when absent. -/
def get_player_position (st : Store) (map_num : Int) (discord_id : String) : Nat :=
  match (get_map_leaderboard st map_num).findIdx? (fun e => e.discord_id = discord_id) with
  | some i => i + 1
  | none => 0

-- Gap to the leader of a row of the leaderboard (main.py lines 163-165).
def gapToLeader (lb : List LBRow) (i : Nat) : Option Nat :=
  match lb.get? i, lb.get? 0 with
  | some e, some l => some (e.time_ms - l.time_ms)
  | _, _ => none

/-! ## Overall standings (main.py lines 351-378) -/

structure StandingRow where
  discord_id : String
  tm_username : String
  points : Int
  maps_completed : Nat
deriving DecidableEq

-- Points for a (nonnegative) leaderboard position as used by the standings
-- sum; positions are never negative so the subscript never raises.
def pointsOfPos (n : Nat) : Int := (get_points_for_position (n : Int)).getD 0

-- The per-player row of get_overall_standings (main.py lines 357-376).
def standingOf (st : Store) (p : Player) : StandingRow :=
  let ts := st.times.filter (fun e => e.discord_id = p.discord_id)
  { discord_id := p.discord_id
    tm_username := p.tm_username
    points := (ts.map (fun e => pointsOfPos (get_player_position st e.map_number p.discord_id))).sum
    maps_completed := ts.length }

def standingRows (st : Store) : List StandingRow := st.players.map (standingOf st)

-- sorted(key=lambda x: (-points, -maps_completed)) comparison (main.py line 378).
def stLt (a b : StandingRow) : Bool :=
  b.points < a.points ∨ (a.points = b.points ∧ b.maps_completed < a.maps_completed)

/-- Model of get_overall_standings (main.py lines 351-378). -/
def get_overall_standings (st : Store) : List StandingRow :=
  ssort stLt (standingRows st)

/-! ## Command core (register, submit_time; main.py lines 68-139) -/

inductive RegisterResult where
  | invalidInput
  | ok
deriving DecidableEq

/-- Model of register_player (main.py lines 68-85): reject usernames longer
than 50 characters, otherwise upsert the player. -/
def register (st : Store) (discord_id : String) (tm_username : String) :
    RegisterResult × Store :=
  if tm_username.length > 50 then (RegisterResult.invalidInput, st)
  else (RegisterResult.ok, { st with players := upsertPlayer st.players ⟨discord_id, tm_username⟩ })

inductive SubmitResult where
  | notRegistered
  | invalidMap
  | invalidTimeFormat
  | outOfRange
  | success (position : Nat)
deriving DecidableEq

/-- Model of submit_time (main.py lines 88-139): registration check, map
check, parse, range check, then upsert of the time entry and the new position
read back from the updated store. -/
def submit_time (st : Store) (discord_id : String) (map_num : Int) (time_str : String) :
    SubmitResult × Store :=
  match findPlayer st discord_id with
  | none => (SubmitResult.notRegistered, st)
  | some _ =>
    if map_num ∉ mapNumbers then (SubmitResult.invalidMap, st)
    else
      match parse_time time_str with
      | none => (SubmitResult.invalidTimeFormat, st)
      | some time_ms =>
        if ¬ (1000 ≤ time_ms ∧ time_ms ≤ 600000) then (SubmitResult.outOfRange, st)
        else
          let st2 : Store := { st with times := upsertTime st.times ⟨discord_id, map_num, time_ms⟩ }
          (SubmitResult.success (get_player_position st2 map_num discord_id), st2)

/-- Store states reachable through the write operations of the bot, starting
from an empty database. -/
inductive Reachable : Store → Prop
  | init : Reachable ⟨[], []⟩
  | reg (st : Store) (discord_id tm_username : String) :
      Reachable st → Reachable (register st discord_id tm_username).2
  | submit (st : Store) (discord_id : String) (map_num : Int) (time_str : String) :
      Reachable st → Reachable (submit_time st discord_id map_num time_str).2

-- Example fixtures used by concrete parts of the theorems below.
def exampleStore : Store :=
  ⟨[⟨"idA", "A"⟩, ⟨"idB", "B"⟩, ⟨"idC", "C"⟩],
   [⟨"idA", 1, 90000⟩, ⟨"idB", 1, 85000⟩, ⟨"idC", 1, 85000⟩]⟩

-- Second fixture: one player with all 5 maps at varying ranks, one player
-- with a single map at rank 1 (the standings example of the spec).
def exampleStore2 : Store :=
  ⟨[⟨"p1", "One"⟩, ⟨"p2", "Two"⟩],
   [⟨"p1", 1, 100000⟩, ⟨"p1", 2, 100000⟩, ⟨"p1", 3, 100000⟩,
    ⟨"p1", 4, 100000⟩, ⟨"p1", 5, 100000⟩, ⟨"p2", 1, 90000⟩]⟩

/-- The uniqueness of the composite key of the times table: at most one entry
per (player, map) pair, the data model invariant maintained by the upsert. -/
def UniqKeys (ts : List TimeEntry) : Prop :=
  (ts.map (fun e => (e.discord_id, e.map_number))).Nodup

instance (ts : List TimeEntry) : Decidable (UniqKeys ts) := by
  unfold UniqKeys
  infer_instance

-- Closed form of the scoring table on positive positions: the table entry at
-- the 1-based position, defaulting to 1 beyond the table.
def pointsTable (n : Nat) : Int := (point_values.get? (n - 1)).getD 1

/-! ## The three parse shapes, characterized

The spec describes parse as accepting exactly three anchored shapes. The
predicates below state those shapes in the words of the spec: a decomposition
of the normalized character list into digit groups and separators together
with the computed value. -/

/-- Spec shape 1: minutes, a colon, 1-2 digit seconds, a colon or period, and
a 1-3 digit fraction right-padded with zeros to 3 digits. -/
def specShape1 (cs : List Char) (v : Nat) : Prop :=
  ∃ d1 d2 sep d3, cs = d1 ++ ':' :: (d2 ++ sep :: d3)
    ∧ 1 ≤ d1.length ∧ (∀ c ∈ d1, c.isDigit = true)
    ∧ (1 ≤ d2.length ∧ d2.length ≤ 2) ∧ (∀ c ∈ d2, c.isDigit = true)
    ∧ (sep = ':' ∨ sep = '.')
    ∧ (1 ≤ d3.length ∧ d3.length ≤ 3) ∧ (∀ c ∈ d3, c.isDigit = true)
    ∧ v = digitsToNat d1 * 60000 + digitsToNat d2 * 1000
        + digitsToNat (d3 ++ List.replicate (3 - d3.length) '0')

/-- Spec shape 2: seconds, a period, and a 1-3 digit fraction right-padded
with zeros to 3 digits. -/
def specShape2 (cs : List Char) (v : Nat) : Prop :=
  ∃ d1 d2, cs = d1 ++ '.' :: d2
    ∧ 1 ≤ d1.length ∧ (∀ c ∈ d1, c.isDigit = true)
    ∧ (1 ≤ d2.length ∧ d2.length ≤ 3) ∧ (∀ c ∈ d2, c.isDigit = true)
    ∧ v = digitsToNat d1 * 1000
        + digitsToNat (d2 ++ List.replicate (3 - d2.length) '0')

/-- Spec shape 3: a bare nonnegative integer read as milliseconds. -/
def specShape3 (cs : List Char) (v : Nat) : Prop :=
  cs ≠ [] ∧ (∀ c ∈ cs, c.isDigit = true) ∧ v = digitsToNat cs

/-! ## Evaluation checks on the embedded code -/

example : get_points_for_position 1 = some 25 := by decide
example : get_points_for_position 5 = some 10 := by decide
example : get_points_for_position 10 = some 1 := by decide
example : get_points_for_position 11 = some 1 := by decide
example : get_points_for_position 0 = some 0 := by decide
example : get_points_for_position (-1) = some 2 := by decide
example : get_points_for_position (-10) = none := by decide

example : parse_time ("1:23.456") = some 83456 := by decide
example : parse_time ("1:23:456") = some 83456 := by decide
example : parse_time ("83.456") = some 83456 := by decide
example : parse_time ("83456") = some 83456 := by decide
example : parse_time ("1:2.4") = some 62400 := by decide
example : parse_time ("abc") = none := by decide
example : parse_time ("") = none := by decide
example : parse_time ("1:2:3:4") = none := by decide
example : parse_time (" 1:23,456 ") = some 83456 := by decide
example : format_time 83456 = ("01:23.456") := by decide
example : format_time 0 = ("00:00.000") := by decide
example : format_time (-5) = ("00:00.000") := by decide
example : parse_time ("0:99.000") = some 99000 := by decide

example : get_map_leaderboard exampleStore 1 =
    [⟨"idB", "B", 85000⟩, ⟨"idC", "C", 85000⟩, ⟨"idA", "A", 90000⟩] := by decide
example : get_player_position exampleStore 1 ("idB") = 1 := by decide
example : get_player_position exampleStore 1 ("idC") = 2 := by decide
example : get_player_position exampleStore 1 ("idA") = 3 := by decide
example : gapToLeader (get_map_leaderboard exampleStore 1) 2 = some 5000 := by decide
example : (submit_time ((register ⟨[], []⟩ ("A") ("Alice")).2) ("A") 1 ("1:23.456")) =
    (SubmitResult.success 1, ⟨[⟨"A", "Alice"⟩], [⟨"A", 1, 83456⟩]⟩) := by decide

/-! ## Lemmas about digit strings -/

theorem digitChar_isDigit {n : Nat} (h : n < 10) : (digitChar n).isDigit = true := by
  interval_cases n <;> decide

theorem digitChar_toNat {n : Nat} (h : n < 10) : (digitChar n).toNat - 48 = n := by
  interval_cases n <;> decide

theorem digitsToNat_cons (c : Char) (cs : List Char) :
    digitsToNat (c :: cs) =
      (c.toNat - 48) * 10 ^ cs.length + digitsToNat cs := by
  unfold digitsToNat
  have key : ∀ (l : List Char) (a : Nat),
      l.foldl (fun a c => 10 * a + (c.toNat - 48)) a =
        a * 10 ^ l.length + l.foldl (fun a c => 10 * a + (c.toNat - 48)) 0 := by
    intro l
    induction l with
    | nil => intro a; simp
    | cons d t ih =>
      intro a
      simp only [List.foldl_cons, List.length_cons]
      rw [ih (10 * a + (d.toNat - 48)), ih (10 * 0 + (d.toNat - 48))]
      ring
  simp only [List.foldl_cons, List.foldl_nil]
  rw [key cs (10 * 0 + (c.toNat - 48))]
  ring

theorem digitsToNat_append (a b : List Char) :
    digitsToNat (a ++ b) = digitsToNat a * 10 ^ b.length + digitsToNat b := by
  induction a with
  | nil => simp [digitsToNat]
  | cons c t ih =>
    rw [List.cons_append, digitsToNat_cons, digitsToNat_cons, ih,
      List.length_append]
    ring

theorem digitsToNat_replicate_zero (k : Nat) :
    digitsToNat (List.replicate k '0') = 0 := by
  induction k with
  | zero => decide
  | succ n ih =>
    rw [List.replicate_succ, digitsToNat_cons, ih]
    have h0 : ('0').toNat - 48 = 0 := by decide
    rw [h0]
    simp

theorem digitsToNat_natDigitsAux {fuel n : Nat} (h : n < fuel) :
    digitsToNat (natDigitsAux fuel n) = n := by
  induction fuel generalizing n with
  | zero => omega
  | succ f ih =>
    unfold natDigitsAux
    by_cases hn : n < 10
    · simp only [if_pos hn]
      rw [digitsToNat_cons]
      simp [digitsToNat, digitChar_toNat hn]
    · simp only [if_neg hn]
      rw [digitsToNat_append, ih (by omega)]
      have h10 : n % 10 < 10 := Nat.mod_lt _ (by omega)
      rw [digitsToNat_cons]
      simp only [List.length_nil, pow_zero, mul_one, List.length_cons, pow_one]
      rw [digitChar_toNat h10]
      simp [digitsToNat]
      omega

theorem digitsToNat_natDigits (n : Nat) : digitsToNat (natDigits n) = n :=
  digitsToNat_natDigitsAux (Nat.lt_succ_self n)

theorem natDigitsAux_all_digits {fuel n : Nat} {c : Char}
    (hc : c ∈ natDigitsAux fuel n) : c.isDigit = true := by
  induction fuel generalizing n with
  | zero => simp [natDigitsAux] at hc
  | succ f ih =>
    unfold natDigitsAux at hc
    by_cases hn : n < 10
    · simp only [if_pos hn, List.mem_singleton] at hc
      subst hc; exact digitChar_isDigit hn
    · simp only [if_neg hn, List.mem_append, List.mem_singleton] at hc
      rcases hc with hc | hc
      · exact ih hc
      · subst hc; exact digitChar_isDigit (Nat.mod_lt _ (by omega))

theorem natDigits_all_digits {n : Nat} {c : Char} (hc : c ∈ natDigits n) :
    c.isDigit = true := natDigitsAux_all_digits hc

theorem natDigits_ne_nil (n : Nat) : natDigits n ≠ [] := by
  unfold natDigits natDigitsAux
  by_cases hn : n < 10 <;> simp [hn]

theorem natDigitsAux_length_le {fuel n k : Nat} (hf : n < fuel) (hk : 1 ≤ k)
    (h : n < 10 ^ k) : (natDigitsAux fuel n).length ≤ k := by
  induction fuel generalizing n k with
  | zero => omega
  | succ f ih =>
    unfold natDigitsAux
    by_cases hn : n < 10
    · simp [hn, hk]
    · simp only [if_neg hn, List.length_append, List.length_cons, List.length_nil]
      have hk2 : 2 ≤ k := by
        by_contra hlt
        have : k = 1 := by omega
        subst this
        simp at h
        omega
      have hdiv : n / 10 < 10 ^ (k - 1) := by
        have h1 : 10 ^ k = 10 ^ (k - 1) * 10 := by
          rw [← pow_succ]
          congr 1
          omega
        rw [Nat.div_lt_iff_lt_mul (by omega)]
        omega
      have := ih (n := n / 10) (k := k - 1) (by omega) (by omega) hdiv
      omega

theorem natDigits_length_le {n k : Nat} (hk : 1 ≤ k) (h : n < 10 ^ k) :
    (natDigits n).length ≤ k :=
  natDigitsAux_length_le (Nat.lt_succ_self n) hk h

theorem padZeros_length {w : Nat} {cs : List Char} (h : cs.length ≤ w) :
    (padZeros w cs).length = w := by
  simp [padZeros]
  omega

theorem padZeros_all_digits {w : Nat} {cs : List Char} {c : Char}
    (hd : ∀ x ∈ cs, x.isDigit = true) (hc : c ∈ padZeros w cs) :
    c.isDigit = true := by
  simp only [padZeros, List.mem_append, List.mem_replicate] at hc
  rcases hc with ⟨_, hc⟩ | hc
  · subst hc; decide
  · exact hd c hc

theorem digitsToNat_padZeros (w : Nat) (cs : List Char) :
    digitsToNat (padZeros w cs) = digitsToNat cs := by
  unfold padZeros
  rw [digitsToNat_append, digitsToNat_replicate_zero]
  simp

theorem padZeros_ne_nil {w : Nat} {cs : List Char} (hw : 1 ≤ w) :
    padZeros w cs ≠ [] := by
  unfold padZeros
  intro h
  have hlen := congrArg List.length h
  rw [List.length_append, List.length_replicate] at hlen
  simp only [List.length_nil] at hlen
  omega

theorem ljust3_of_length_le {cs : List Char} (h : cs.length ≤ 3) :
    ljust3 cs = cs ++ List.replicate (3 - cs.length) '0' := by
  unfold ljust3
  apply List.take_of_length_le
  simp
  omega

theorem ljust3_of_length_eq {cs : List Char} (h : cs.length = 3) :
    ljust3 cs = cs := by
  rw [ljust3_of_length_le (by omega), h]
  simp

theorem digitsToNat_ljust3 {cs : List Char} (h : cs.length ≤ 3) :
    digitsToNat (ljust3 cs) = digitsToNat cs * 10 ^ (3 - cs.length) := by
  rw [ljust3_of_length_le h, digitsToNat_append, digitsToNat_replicate_zero,
    List.length_replicate]
  omega

/-! ## Lemmas about takeWhile and dropWhile splits -/

theorem takeWhile_all {p : Char → Bool} {d : List Char}
    (hd : ∀ x ∈ d, p x = true) : d.takeWhile p = d := by
  induction d with
  | nil => rfl
  | cons a t ih =>
    rw [List.takeWhile_cons, hd a (by simp)]
    simp only [if_pos trivial]
    rw [ih (fun x hx => hd x (by simp [hx]))]

theorem dropWhile_all {p : Char → Bool} {d : List Char}
    (hd : ∀ x ∈ d, p x = true) : d.dropWhile p = [] := by
  induction d with
  | nil => rfl
  | cons a t ih =>
    rw [List.dropWhile_cons, hd a (by simp)]
    simp only [if_pos trivial]
    exact ih (fun x hx => hd x (by simp [hx]))

theorem takeWhile_append_stop {p : Char → Bool} {d : List Char} {c : Char}
    (r : List Char) (hd : ∀ x ∈ d, p x = true) (hc : p c = false) :
    (d ++ c :: r).takeWhile p = d := by
  induction d with
  | nil => simp [List.takeWhile_cons, hc]
  | cons a t ih =>
    rw [List.cons_append, List.takeWhile_cons, hd a (by simp)]
    simp only [if_pos trivial]
    rw [ih (fun x hx => hd x (by simp [hx]))]

theorem dropWhile_append_stop {p : Char → Bool} {d : List Char} {c : Char}
    (r : List Char) (hd : ∀ x ∈ d, p x = true) (hc : p c = false) :
    (d ++ c :: r).dropWhile p = c :: r := by
  induction d with
  | nil => simp [List.dropWhile_cons, hc]
  | cons a t ih =>
    rw [List.cons_append, List.dropWhile_cons, hd a (by simp)]
    simp only [if_pos trivial]
    exact ih (fun x hx => hd x (by simp [hx]))

theorem mem_takeWhile_pred {p : Char → Bool} {l : List Char} {c : Char}
    (hc : c ∈ l.takeWhile p) : p c = true := by
  induction l with
  | nil => simp at hc
  | cons a t ih =>
    rw [List.takeWhile_cons] at hc
    by_cases hp : p a
    · simp only [if_pos hp, List.mem_cons] at hc
      rcases hc with hc | hc
      · exact hc ▸ hp
      · exact ih hc
    · simp [hp] at hc

theorem dropWhile_head_false {p : Char → Bool} {l r : List Char} {c : Char}
    (h : l.dropWhile p = c :: r) : p c = false := by
  induction l with
  | nil => simp at h
  | cons a t ih =>
    rw [List.dropWhile_cons] at h
    by_cases hp : p a
    · exact ih (by simpa [hp] using h)
    · simp only [if_neg hp] at h
      cases h
      simpa using hp

theorem head?_eq_some_split {l : List Char} {c : Char}
    (h : l.head? = some c) : l = c :: l.tail := by
  cases l with
  | nil => simp at h
  | cons a t => simp at h; simp [h]

/-! ## Normalization is the identity on clean strings -/

theorem dropWhile_id_of_none {p : Char → Bool} {l : List Char}
    (h : ∀ x ∈ l, p x = false) : l.dropWhile p = l := by
  cases l with
  | nil => rfl
  | cons a t => rw [List.dropWhile_cons, h a (by simp)]; simp

theorem pyStrip_id {cs : List Char} (h : ∀ x ∈ cs, isPySpace x = false) :
    pyStrip cs = cs := by
  unfold pyStrip
  rw [dropWhile_id_of_none h, dropWhile_id_of_none (by
    intro x hx
    exact h x (by simpa using hx)), List.reverse_reverse]

theorem pyNormalize_id {cs : List Char} (hs : ∀ x ∈ cs, isPySpace x = false)
    (hc : ∀ x ∈ cs, x ≠ ',') : pyNormalize cs = cs := by
  unfold pyNormalize
  rw [pyStrip_id hs]
  have : cs.map (fun c => if c = ',' then '.' else c) = cs.map id := by
    apply List.map_congr_left
    intro a ha
    simp [hc a ha]
  rw [this, List.map_id]

theorem isDigit_not_space {c : Char} (h : c.isDigit = true) :
    isPySpace c = false := by
  by_contra hcon
  have hsp : isPySpace c = true := by
    cases hb : isPySpace c
    · exact absurd hb hcon
    · rfl
  unfold isPySpace at hsp
  rw [decide_eq_true_eq] at hsp
  rcases hsp with h1 | h1 | h1 | h1 | h1 | h1 <;> subst h1 <;> simp at h

theorem isDigit_not_comma {c : Char} (h : c.isDigit = true) : c ≠ ',' := by
  intro hc
  subst hc
  simp at h

theorem colon_not_space : isPySpace ':' = false := by decide

theorem period_not_space : isPySpace '.' = false := by decide

theorem colon_not_digit : (':').isDigit = false := by decide

theorem period_not_digit : ('.').isDigit = false := by decide

/-! ## Forcing lemmas for the three parse shapes -/

theorem matchShape1_some {cs : List Char} {v : Nat}
    (h : matchShape1 cs = some v) : specShape1 cs v := by
  simp only [matchShape1] at h
  split at h
  case isFalse => simp at h
  case isTrue hcond =>
    obtain ⟨hl1, hh1, hl2, hsep, hl3a, hl3b, hdw⟩ := hcond
    have hv := Option.some.inj h
    have hr1 : cs.dropWhile Char.isDigit = ':' :: (cs.dropWhile Char.isDigit).tail :=
      head?_eq_some_split hh1
    have hsplit1 : cs.takeWhile Char.isDigit ++ cs.dropWhile Char.isDigit = cs :=
      List.takeWhile_append_dropWhile Char.isDigit cs
    have hsplit2 :
        ((cs.dropWhile Char.isDigit).tail.takeWhile Char.isDigit)
          ++ ((cs.dropWhile Char.isDigit).tail.dropWhile Char.isDigit)
          = (cs.dropWhile Char.isDigit).tail :=
      List.takeWhile_append_dropWhile Char.isDigit _
    have hr3head : ∃ sep, ((cs.dropWhile Char.isDigit).tail.dropWhile Char.isDigit).head?
        = some sep ∧ (sep = ':' ∨ sep = '.') := by
      rcases hsep with hs | hs
      · exact ⟨':', hs, Or.inl rfl⟩
      · exact ⟨'.', hs, Or.inr rfl⟩
    obtain ⟨sep, hh3, hseps⟩ := hr3head
    have hr3 : (cs.dropWhile Char.isDigit).tail.dropWhile Char.isDigit
        = sep :: ((cs.dropWhile Char.isDigit).tail.dropWhile Char.isDigit).tail :=
      head?_eq_some_split hh3
    have hr4all :
        ((cs.dropWhile Char.isDigit).tail.dropWhile Char.isDigit).tail.takeWhile Char.isDigit
          = ((cs.dropWhile Char.isDigit).tail.dropWhile Char.isDigit).tail := by
      have hsub := List.takeWhile_append_dropWhile Char.isDigit
        ((cs.dropWhile Char.isDigit).tail.dropWhile Char.isDigit).tail
      rw [hdw, List.append_nil] at hsub
      exact hsub
    have hr2eq : (cs.dropWhile Char.isDigit).tail
        = (cs.dropWhile Char.isDigit).tail.takeWhile Char.isDigit
          ++ sep :: ((cs.dropWhile Char.isDigit).tail.dropWhile Char.isDigit).tail := by
      conv_lhs => rw [← hsplit2, hr3]
    have hcseq : cs = cs.takeWhile Char.isDigit
        ++ ':' :: ((cs.dropWhile Char.isDigit).tail.takeWhile Char.isDigit
          ++ sep :: ((cs.dropWhile Char.isDigit).tail.dropWhile Char.isDigit).tail) := by
      conv_lhs => rw [← hsplit1, hr1, hr2eq]
    rw [hr4all] at hl3a hl3b
    refine ⟨cs.takeWhile Char.isDigit,
      (cs.dropWhile Char.isDigit).tail.takeWhile Char.isDigit, sep,
      ((cs.dropWhile Char.isDigit).tail.dropWhile Char.isDigit).tail,
      hcseq, hl1, fun c hc => mem_takeWhile_pred hc, by omega,
      fun c hc => mem_takeWhile_pred hc, hseps, ⟨hl3a, hl3b⟩,
      fun c hc => by rw [← hr4all] at hc; exact mem_takeWhile_pred hc, ?_⟩
    rw [← hv, hr4all, ljust3_of_length_le hl3b]

theorem matchShape1_of_spec {cs : List Char} {v : Nat}
    (h : specShape1 cs v) : matchShape1 cs = some v := by
  obtain ⟨d1, d2, sep, d3, hcs, hl1, hd1, hl2, hd2, hseps, hl3, hd3, hval⟩ := h
  have hsepd : sep.isDigit = false := by
    rcases hseps with hs | hs <;> subst hs <;> decide
  have htw1 : (d1 ++ ':' :: (d2 ++ sep :: d3)).takeWhile Char.isDigit = d1 :=
    takeWhile_append_stop _ hd1 colon_not_digit
  have hdw1 : (d1 ++ ':' :: (d2 ++ sep :: d3)).dropWhile Char.isDigit
      = ':' :: (d2 ++ sep :: d3) :=
    dropWhile_append_stop _ hd1 colon_not_digit
  have htw2 : (d2 ++ sep :: d3).takeWhile Char.isDigit = d2 :=
    takeWhile_append_stop _ hd2 hsepd
  have hdw2 : (d2 ++ sep :: d3).dropWhile Char.isDigit = sep :: d3 :=
    dropWhile_append_stop _ hd2 hsepd
  have htw3 : d3.takeWhile Char.isDigit = d3 := takeWhile_all hd3
  have hdw3 : d3.dropWhile Char.isDigit = [] := dropWhile_all hd3
  subst hcs
  have hc2 : d2.length = 1 ∨ d2.length = 2 := by omega
  simp only [matchShape1, htw1, hdw1, List.tail_cons, htw2, hdw2, htw3, hdw3]
  rw [ljust3_of_length_le hl3.2]
  simp [hl1, hc2, hseps, hl3.1, hl3.2, hval]

theorem matchShape2_some {cs : List Char} {v : Nat}
    (h : matchShape2 cs = some v) : specShape2 cs v := by
  simp only [matchShape2] at h
  split at h
  case isFalse => simp at h
  case isTrue hcond =>
    obtain ⟨hl1, hh1, hl2a, hl2b, hdw⟩ := hcond
    have hv := Option.some.inj h
    have hr1 : cs.dropWhile Char.isDigit = '.' :: (cs.dropWhile Char.isDigit).tail :=
      head?_eq_some_split hh1
    have hsplit1 : cs.takeWhile Char.isDigit ++ cs.dropWhile Char.isDigit = cs :=
      List.takeWhile_append_dropWhile Char.isDigit cs
    have hr2all : (cs.dropWhile Char.isDigit).tail.takeWhile Char.isDigit
        = (cs.dropWhile Char.isDigit).tail := by
      have hsub := List.takeWhile_append_dropWhile Char.isDigit
        (cs.dropWhile Char.isDigit).tail
      rw [hdw, List.append_nil] at hsub
      exact hsub
    have hcseq : cs = cs.takeWhile Char.isDigit
        ++ '.' :: (cs.dropWhile Char.isDigit).tail := by
      conv_lhs => rw [← hsplit1, hr1]
    rw [hr2all] at hl2a hl2b
    refine ⟨cs.takeWhile Char.isDigit, (cs.dropWhile Char.isDigit).tail,
      hcseq, hl1, fun c hc => mem_takeWhile_pred hc, ⟨hl2a, hl2b⟩,
      fun c hc => by rw [← hr2all] at hc; exact mem_takeWhile_pred hc, ?_⟩
    rw [← hv, hr2all, ljust3_of_length_le hl2b]

theorem matchShape2_of_spec {cs : List Char} {v : Nat}
    (h : specShape2 cs v) : matchShape2 cs = some v := by
  obtain ⟨d1, d2, hcs, hl1, hd1, hl2, hd2, hval⟩ := h
  have htw1 : (d1 ++ '.' :: d2).takeWhile Char.isDigit = d1 :=
    takeWhile_append_stop _ hd1 period_not_digit
  have hdw1 : (d1 ++ '.' :: d2).dropWhile Char.isDigit = '.' :: d2 :=
    dropWhile_append_stop _ hd1 period_not_digit
  have htw2 : d2.takeWhile Char.isDigit = d2 := takeWhile_all hd2
  have hdw2 : d2.dropWhile Char.isDigit = [] := dropWhile_all hd2
  subst hcs
  simp only [matchShape2, htw1, hdw1, List.tail_cons, htw2, hdw2]
  rw [ljust3_of_length_le hl2.2]
  simp [hl1, hl2.1, hl2.2, hval]

theorem matchShape3_some {cs : List Char} {v : Nat}
    (h : matchShape3 cs = some v) : specShape3 cs v := by
  simp only [matchShape3] at h
  split at h
  case isFalse => simp at h
  case isTrue hcond =>
    obtain ⟨hl, hdw⟩ := hcond
    have hv := Option.some.inj h
    have htw : cs.takeWhile Char.isDigit = cs := by
      have hsub := List.takeWhile_append_dropWhile Char.isDigit cs
      rw [hdw, List.append_nil] at hsub
      exact hsub
    refine ⟨?_, fun c hc => by rw [← htw] at hc; exact mem_takeWhile_pred hc, hv.symm⟩
    intro hnil
    rw [hnil] at hl
    simp at hl

theorem matchShape3_of_spec {cs : List Char} {v : Nat}
    (h : specShape3 cs v) : matchShape3 cs = some v := by
  obtain ⟨hne, hd, hval⟩ := h
  have hdw : cs.dropWhile Char.isDigit = [] := dropWhile_all hd
  have hlen : 1 ≤ cs.length := by
    cases cs with
    | nil => exact absurd rfl hne
    | cons a t => simp
  simp [matchShape3, hdw, hlen, hval]

theorem matchShape1_none_of_no_colon {cs : List Char} (h : ':' ∉ cs) :
    matchShape1 cs = none := by
  cases hm : matchShape1 cs with
  | none => rfl
  | some w =>
    obtain ⟨d1, d2, sep, d3, hcs, _⟩ := matchShape1_some hm
    exact absurd (by rw [hcs]; simp) h

theorem matchShape2_none_of_no_period {cs : List Char} (h : '.' ∉ cs) :
    matchShape2 cs = none := by
  cases hm : matchShape2 cs with
  | none => rfl
  | some w =>
    obtain ⟨d1, d2, hcs, _⟩ := matchShape2_some hm
    exact absurd (by rw [hcs]; simp) h

theorem orElse_some {α : Type} (a : α) (f : Unit → Option α) :
    (some a).orElse f = some a := rfl

theorem orElse_none {α : Type} (f : Unit → Option α) :
    (none : Option α).orElse f = f () := rfl

/-- The full characterization of parse_time: on any input it succeeds with
value v exactly when the normalized input falls in one of the three spec
shapes with that value. -/
theorem parse_time_some_iff (s : String) (v : Nat) :
    parse_time s = some v ↔
      (specShape1 (pyNormalize s.data) v ∨ specShape2 (pyNormalize s.data) v
        ∨ specShape3 (pyNormalize s.data) v) := by
  constructor
  · intro h
    simp only [parse_time] at h
    cases h1 : matchShape1 (pyNormalize s.data) with
    | some w =>
      rw [h1, orElse_some] at h
      exact Or.inl (matchShape1_some (h1.trans h))
    | none =>
      rw [h1, orElse_none] at h
      cases h2 : matchShape2 (pyNormalize s.data) with
      | some w =>
        rw [h2, orElse_some] at h
        exact Or.inr (Or.inl (matchShape2_some (h2.trans h)))
      | none =>
        rw [h2, orElse_none] at h
        exact Or.inr (Or.inr (matchShape3_some h))
  · intro h
    simp only [parse_time]
    rcases h with h | h | h
    · rw [matchShape1_of_spec h, orElse_some]
    · have hnc : ':' ∉ pyNormalize s.data := by
        obtain ⟨d1, d2, hcs, _, hd1, _, hd2, _⟩ := h
        intro hmem
        rw [hcs] at hmem
        simp only [List.mem_append, List.mem_cons] at hmem
        rcases hmem with hm | hm | hm
        · have := hd1 _ hm; simp at this
        · exact absurd hm (by decide)
        · have := hd2 _ hm; simp at this
      rw [matchShape1_none_of_no_colon hnc, orElse_none,
        matchShape2_of_spec h, orElse_some]
    · obtain ⟨hne, hd, hval⟩ := h
      have hnc : ':' ∉ pyNormalize s.data := by
        intro hmem
        have := hd _ hmem; simp at this
      have hnp : '.' ∉ pyNormalize s.data := by
        intro hmem
        have := hd _ hmem; simp at this
      rw [matchShape1_none_of_no_colon hnc, orElse_none,
        matchShape2_none_of_no_period hnp, orElse_none,
        matchShape3_of_spec ⟨hne, hd, hval⟩]

/-! ## Round trip: parse of a formatted time -/

theorem parse_time_shape1 (d1 d2 d3 : List Char) (sep : Char)
    (hl1 : 1 ≤ d1.length) (hd1 : ∀ c ∈ d1, c.isDigit = true)
    (hl2 : 1 ≤ d2.length ∧ d2.length ≤ 2) (hd2 : ∀ c ∈ d2, c.isDigit = true)
    (hseps : sep = ':' ∨ sep = '.')
    (hl3 : 1 ≤ d3.length ∧ d3.length ≤ 3) (hd3 : ∀ c ∈ d3, c.isDigit = true) :
    parse_time ⟨d1 ++ ':' :: (d2 ++ sep :: d3)⟩ =
      some (digitsToNat d1 * 60000 + digitsToNat d2 * 1000
        + digitsToNat (d3 ++ List.replicate (3 - d3.length) '0')) := by
  have hmem : ∀ x ∈ d1 ++ ':' :: (d2 ++ sep :: d3),
      x.isDigit = true ∨ x = ':' ∨ x = '.' := by
    intro x hx
    simp only [List.mem_append, List.mem_cons] at hx
    rcases hx with hx | hx | hx | hx | hx
    · exact Or.inl (hd1 _ hx)
    · exact Or.inr (Or.inl hx)
    · exact Or.inl (hd2 _ hx)
    · subst hx
      rcases hseps with hs | hs
      · exact Or.inr (Or.inl hs)
      · exact Or.inr (Or.inr hs)
    · exact Or.inl (hd3 _ hx)
  have hclean : pyNormalize (d1 ++ ':' :: (d2 ++ sep :: d3))
      = d1 ++ ':' :: (d2 ++ sep :: d3) := by
    apply pyNormalize_id
    · intro x hx
      rcases hmem x hx with hd | hc | hc
      · exact isDigit_not_space hd
      · subst hc; decide
      · subst hc; decide
    · intro x hx
      rcases hmem x hx with hd | hc | hc
      · exact isDigit_not_comma hd
      · subst hc; decide
      · subst hc; decide
  have hdata : (⟨d1 ++ ':' :: (d2 ++ sep :: d3)⟩ : String).data
      = d1 ++ ':' :: (d2 ++ sep :: d3) := rfl
  simp only [parse_time, hdata, hclean]
  rw [matchShape1_of_spec
    ⟨d1, d2, sep, d3, rfl, hl1, hd1, hl2, hd2, hseps, hl3, hd3, rfl⟩, orElse_some]

theorem format_time_pos (ms : Int) (h : 0 < ms) :
    format_time ms = ⟨padZeros 2 (natDigits (ms.toNat / 60000)) ++
      ':' :: (padZeros 2 (natDigits (ms.toNat % 60000 / 1000)) ++
        '.' :: padZeros 3 (natDigits (ms.toNat % 1000)))⟩ := by
  unfold format_time
  rw [if_neg (by omega)]

theorem pow_ten_two : (10 : Nat) ^ 2 = 100 := by norm_num

theorem pow_ten_three : (10 : Nat) ^ 3 = 1000 := by norm_num

theorem parse_format_time (m : Nat) :
    parse_time (⟨padZeros 2 (natDigits (m / 60000)) ++
      ':' :: (padZeros 2 (natDigits (m % 60000 / 1000)) ++
        '.' :: padZeros 3 (natDigits (m % 1000)))⟩ : String) = some m := by
  have hseclen : (natDigits (m % 60000 / 1000)).length ≤ 2 :=
    natDigits_length_le (by norm_num) (by rw [pow_ten_two]; omega)
  have hremlen : (natDigits (m % 1000)).length ≤ 3 :=
    natDigits_length_le (by norm_num) (by rw [pow_ten_three]; omega)
  have hd2len : (padZeros 2 (natDigits (m % 60000 / 1000))).length = 2 :=
    padZeros_length hseclen
  have hd3len : (padZeros 3 (natDigits (m % 1000))).length = 3 :=
    padZeros_length hremlen
  have hd1pos : 1 ≤ (padZeros 2 (natDigits (m / 60000))).length := by
    have hne : padZeros 2 (natDigits (m / 60000)) ≠ [] :=
      padZeros_ne_nil (by norm_num)
    cases hh : padZeros 2 (natDigits (m / 60000)) with
    | nil => exact absurd hh hne
    | cons a t => simp
  rw [parse_time_shape1 _ _ _ '.' hd1pos
    (fun c hc => padZeros_all_digits (fun x hx => natDigits_all_digits hx) hc)
    ⟨by omega, by omega⟩
    (fun c hc => padZeros_all_digits (fun x hx => natDigits_all_digits hx) hc)
    (Or.inr rfl)
    ⟨by omega, by omega⟩
    (fun c hc => padZeros_all_digits (fun x hx => natDigits_all_digits hx) hc)]
  rw [hd3len]
  simp only [Nat.sub_self, List.replicate_zero, List.append_nil]
  simp only [digitsToNat_padZeros, digitsToNat_natDigits]
  congr 1
  have e3 : m % 60000 % 1000 = m % 1000 :=
    Nat.mod_mod_of_dvd m (by norm_num)
  have e1 := Nat.div_add_mod m 60000
  have e2 := Nat.div_add_mod (m % 60000) 1000
  omega

/-! ## Stable insertion sort lemmas -/

theorem insertS_perm {α : Type} (lt : α → α → Bool) (x : α) (l : List α) :
    (insertS lt x l).Perm (x :: l) := by
  induction l with
  | nil => exact List.Perm.refl _
  | cons y ys ih =>
    unfold insertS
    by_cases h : lt y x
    · simp only [if_pos h]
      exact (List.Perm.cons y ih).trans (List.Perm.swap x y ys)
    · simp only [if_neg h]
      exact List.Perm.refl _

theorem ssort_perm {α : Type} (lt : α → α → Bool) (l : List α) :
    (ssort lt l).Perm l := by
  induction l with
  | nil => exact List.Perm.refl _
  | cons x xs ih =>
    exact (insertS_perm lt x (ssort lt xs)).trans (List.Perm.cons x ih)

theorem insertS_pairwise {α : Type} {lt : α → α → Bool}
    (hasym : ∀ a b, lt a b = true → lt b a = false)
    (htrans : ∀ a b c, lt b a = false → lt c b = false → lt c a = false)
    (x : α) {l : List α} (hl : l.Pairwise (fun a b => lt b a = false)) :
    (insertS lt x l).Pairwise (fun a b => lt b a = false) := by
  induction l with
  | nil => simp [insertS]
  | cons y ys ih =>
    rw [List.pairwise_cons] at hl
    obtain ⟨hy, hys⟩ := hl
    unfold insertS
    by_cases h : lt y x
    · simp only [if_pos h]
      rw [List.pairwise_cons]
      refine ⟨?_, ih hys⟩
      intro z hz
      rcases List.mem_cons.mp ((insertS_perm lt x ys).mem_iff.mp hz) with hz2 | hz2
      · rw [hz2]; exact hasym y x h
      · exact hy z hz2
    · simp only [if_neg h]
      have hyx : lt y x = false := by
        cases hb : lt y x
        · rfl
        · exact absurd hb h
      rw [List.pairwise_cons]
      refine ⟨?_, List.Pairwise.cons hy hys⟩
      intro z hz
      rcases List.mem_cons.mp hz with hz2 | hz2
      · rw [hz2]; exact hyx
      · exact htrans x y z hyx (hy z hz2)

theorem ssort_pairwise {α : Type} {lt : α → α → Bool}
    (hasym : ∀ a b, lt a b = true → lt b a = false)
    (htrans : ∀ a b c, lt b a = false → lt c b = false → lt c a = false)
    (l : List α) : (ssort lt l).Pairwise (fun a b => lt b a = false) := by
  induction l with
  | nil => simp [ssort]
  | cons x xs ih => exact insertS_pairwise hasym htrans x ih

theorem insertS_filter {α : Type} {lt : α → α → Bool} (q : α → Bool) (x : α)
    {l : List α} (hq : ∀ y ∈ l, q y = true → q x = true → lt y x = false) :
    (insertS lt x l).filter q = if q x then x :: l.filter q else l.filter q := by
  induction l with
  | nil =>
    unfold insertS
    by_cases hqx : q x <;> simp [List.filter_cons, hqx]
  | cons y ys ih =>
    have ih2 := ih (fun z hz => hq z (by simp [hz]))
    unfold insertS
    by_cases h : lt y x
    · simp only [if_pos h, List.filter_cons]
      by_cases hqy : q y
      · have hqx : q x = false := by
          cases hb : q x
          · rfl
          · exact absurd (hq y (by simp) hqy hb) (by simp [h])
        simp [hqy, hqx, ih2, List.filter_cons]
      · simp [hqy, ih2, List.filter_cons]
    · simp only [if_neg h, List.filter_cons]

theorem ssort_filter {α : Type} {lt : α → α → Bool} (q : α → Bool)
    (hq : ∀ a b, q a = true → q b = true → lt a b = false) (l : List α) :
    (ssort lt l).filter q = l.filter q := by
  induction l with
  | nil => rfl
  | cons x xs ih =>
    show (insertS lt x (ssort lt xs)).filter q = _
    rw [insertS_filter q x (fun y hy hqy hqx => hq y x hqy hqx), ih, List.filter_cons]

theorem lbLt_asym : ∀ a b : LBRow, lbLt a b = true → lbLt b a = false := by
  intro a b h
  simp [lbLt] at h ⊢
  omega

theorem lbLt_negtrans : ∀ a b c : LBRow,
    lbLt b a = false → lbLt c b = false → lbLt c a = false := by
  intro a b c h1 h2
  simp [lbLt] at h1 h2 ⊢
  omega

theorem stLt_asym : ∀ a b : StandingRow, stLt a b = true → stLt b a = false := by
  intro a b h
  simp [stLt] at h ⊢
  omega

theorem stLt_negtrans : ∀ a b c : StandingRow,
    stLt b a = false → stLt c b = false → stLt c a = false := by
  intro a b c h1 h2
  simp [stLt] at h1 h2 ⊢
  omega

/-! ## Scoring table lemmas -/

theorem gp_zero : get_points_for_position 0 = some 0 := by decide

theorem gp_pos_eq (r : Int) (h : 1 ≤ r) :
    get_points_for_position r = some (pointsTable r.toNat) := by
  have htn : (r - 1).toNat = r.toNat - 1 := by omega
  simp only [get_points_for_position, pyListGet, pointsTable]
  rw [if_neg (by omega)]
  by_cases h10 : r ≤ (point_values.length : Int)
  · rw [if_pos h10, if_neg (by omega : ¬ r - 1 < 0),
      if_pos (by constructor <;> [omega; (simp [point_values] at h10 ⊢; omega)])]
    have hidx : r.toNat - 1 < point_values.length := by
      simp [point_values] at h10 ⊢
      omega
    rw [htn, List.get?_eq_get hidx]
    simp
  · rw [if_neg h10]
    have hidx : point_values.length ≤ r.toNat - 1 := by
      simp [point_values] at h10 ⊢
      omega
    rw [List.get?_eq_none.mpr hidx]
    simp

theorem pointsOfPos_zero : pointsOfPos 0 = 0 := by decide

theorem pointsOfPos_pos (n : Nat) (h : 1 ≤ n) : pointsOfPos n = pointsTable n := by
  unfold pointsOfPos
  rw [gp_pos_eq (n : Int) (by omega)]
  simp

theorem pointsTable_mono (n m : Nat) (hn : 1 ≤ n) (hnm : n ≤ m) :
    pointsTable m ≤ pointsTable n := by
  by_cases hm : m < 11
  · have hsmall : ∀ p, p < 11 → ∀ q, q < 11 → 1 ≤ p → p ≤ q →
        pointsTable q ≤ pointsTable p := by decide
    exact hsmall n (by omega) m hm hn hnm
  · have h1 : pointsTable m = 1 := by
      unfold pointsTable
      rw [List.get?_eq_none.mpr (by simp [point_values]; omega)]
      rfl
    have h2 : 1 ≤ pointsTable n := by
      by_cases hn10 : n < 11
      · have hsmall2 : ∀ p, p < 11 → 1 ≤ p → 1 ≤ pointsTable p := by decide
        exact hsmall2 n hn10 hn
      · unfold pointsTable
        rw [List.get?_eq_none.mpr (by simp [point_values]; omega)]
        simp
    omega

/-! ## Claim theorems -/

/-- Claim C1 counterexample: the claim states that every rank at most 0 yields
0 points and that the function is total, but the code applies Python negative
indexing to the points table, so rank -1 yields 2 points and rank -10 raises
an IndexError (modelled as none). -/
theorem c1_points_contract_counterexample :
    get_points_for_position (-1) = some 2 ∧ get_points_for_position (-10) = none := by
  decide

/-- Claim C1 (amended): get_points_for_position returns 0 points exactly at
rank 0, the 1-based table entry for ranks 1 to 10, a flat 1 point for ranks
above 10, and it is defined (returns a value rather than erroring) for every
rank at least -9, negative ranks hitting the table through Python negative
indexing. -/
theorem c1_points_contract (rank : Int) :
    (rank = 0 → get_points_for_position rank = some 0)
    ∧ (1 ≤ rank → rank ≤ 10 →
        get_points_for_position rank = point_values.get? (rank - 1).toNat)
    ∧ (10 < rank → get_points_for_position rank = some 1)
    ∧ (-9 ≤ rank → (get_points_for_position rank).isSome = true) := by
  have hlen : (point_values.length : Int) = 10 := by decide
  refine ⟨?_, ?_, ?_, ?_⟩
  · intro h; subst h; decide
  · intro h1 h2
    interval_cases rank <;> decide
  · intro h
    unfold get_points_for_position
    rw [if_neg (by omega), if_neg (by omega)]
  · intro h1
    by_cases h10 : rank ≤ 10
    · interval_cases rank <;> decide
    · unfold get_points_for_position
      rw [if_neg (by omega), if_neg (by omega)]
      rfl

/-- Claim C1 witness: concrete instances of every clause of the amended
contract. -/
theorem c1_points_contract_witness :
    get_points_for_position 0 = some 0
    ∧ get_points_for_position 5 = point_values.get? (((5 : Int) - 1).toNat)
    ∧ get_points_for_position 11 = some 1
    ∧ (get_points_for_position (-9)).isSome = true :=
  ⟨(c1_points_contract 0).1 rfl,
   (c1_points_contract 5).2.1 (by decide) (by decide),
   (c1_points_contract 11).2.2.1 (by decide),
   (c1_points_contract (-9)).2.2.2 (by decide)⟩

/-- Claim C10: on positive ranks the scoring function is monotonically
non-increasing: a numerically smaller (better) rank never earns fewer
points. -/
theorem c10_points_monotone (r1 r2 : Int) (h1 : 1 ≤ r1) (h12 : r1 ≤ r2) :
    ∃ v1 v2 : Int, get_points_for_position r1 = some v1
      ∧ get_points_for_position r2 = some v2 ∧ v2 ≤ v1 := by
  refine ⟨pointsTable r1.toNat, pointsTable r2.toNat,
    gp_pos_eq r1 h1, gp_pos_eq r2 (by omega), ?_⟩
  exact pointsTable_mono r1.toNat r2.toNat (by omega) (by omega)

/-- Claim C10 witness at ranks 3 and 7. -/
theorem c10_points_monotone_witness :
    ∃ v1 v2 : Int, get_points_for_position 3 = some v1
      ∧ get_points_for_position 7 = some v2 ∧ v2 ≤ v1 :=
  c10_points_monotone 3 7 (by decide) (by decide)

/-- Claim C2: for every integer t with 0 < t, parsing the formatted rendering
of t succeeds and returns t. -/
theorem c2_parse_format_roundtrip (t : Int) (h : 0 < t) :
    parse_time (format_time t) = some t.toNat ∧ ((t.toNat : Int) = t) := by
  refine ⟨?_, by omega⟩
  rw [format_time_pos t h]
  exact parse_format_time t.toNat

/-- Claim C2 witness at t = 83456, including the formatted rendering from the
spec example. -/
theorem c2_parse_format_roundtrip_witness :
    parse_time (format_time 83456) = some 83456
    ∧ format_time 83456 = ("01:23.456" : String) :=
  ⟨(c2_parse_format_roundtrip 83456 (by decide)).1, by decide⟩

/-- Claim C3: after trimming and comma normalization, parse succeeds with
value v exactly when the input matches one of the three anchored shapes with
that value, and the spec examples behave as stated. -/
theorem c3_parse_shapes :
    (∀ (s : String) (v : Nat), parse_time s = some v ↔
      (specShape1 (pyNormalize s.data) v ∨ specShape2 (pyNormalize s.data) v
        ∨ specShape3 (pyNormalize s.data) v))
    ∧ parse_time ("1:2.4") = some 62400
    ∧ parse_time ("abc") = none
    ∧ parse_time ("") = none
    ∧ parse_time ("1:2:3:4") = none :=
  ⟨parse_time_some_iff, by decide, by decide, by decide, by decide⟩

/-- Claim C8: format returns the literal 00:00.000 string for every value at
most 0, and for positive values renders an unbounded zero-padded minutes
field, a seconds field below 60 padded to exactly two digits, and a
millisecond remainder padded to exactly three digits. -/
theorem c8_format_contract (ms : Int) :
    (ms ≤ 0 → format_time ms = ("00:00.000" : String))
    ∧ (0 < ms → ∃ mi se rem : Nat,
        (mi : Int) * 60000 + (se : Int) * 1000 + (rem : Int) = ms
        ∧ se < 60 ∧ rem < 1000
        ∧ 2 ≤ (padZeros 2 (natDigits mi)).length
        ∧ (padZeros 2 (natDigits se)).length = 2
        ∧ (padZeros 3 (natDigits rem)).length = 3
        ∧ format_time ms = ⟨padZeros 2 (natDigits mi) ++
            ':' :: (padZeros 2 (natDigits se) ++ '.' :: padZeros 3 (natDigits rem))⟩) := by
  constructor
  · intro h
    unfold format_time
    rw [if_pos h]
  · intro h
    refine ⟨ms.toNat / 60000, ms.toNat % 60000 / 1000, ms.toNat % 1000,
      ?_, by omega, by omega, ?_, ?_, ?_, format_time_pos ms h⟩
    · have e3 : ms.toNat % 60000 % 1000 = ms.toNat % 1000 :=
        Nat.mod_mod_of_dvd _ (by norm_num)
      have e1 := Nat.div_add_mod ms.toNat 60000
      have e2 := Nat.div_add_mod (ms.toNat % 60000) 1000
      omega
    · simp only [padZeros, List.length_append, List.length_replicate]
      omega
    · exact padZeros_length (natDigits_length_le (by norm_num)
        (by rw [pow_ten_two]; omega))
    · exact padZeros_length (natDigits_length_le (by norm_num)
        (by rw [pow_ten_three]; omega))

/-- Claim C8 witness at -5 and 83456. -/
theorem c8_format_contract_witness :
    format_time (-5) = ("00:00.000" : String)
    ∧ (∃ mi se rem : Nat,
        (mi : Int) * 60000 + (se : Int) * 1000 + (rem : Int) = (83456 : Int)
        ∧ se < 60 ∧ rem < 1000
        ∧ 2 ≤ (padZeros 2 (natDigits mi)).length
        ∧ (padZeros 2 (natDigits se)).length = 2
        ∧ (padZeros 3 (natDigits rem)).length = 3
        ∧ format_time 83456 = ⟨padZeros 2 (natDigits mi) ++
            ':' :: (padZeros 2 (natDigits se) ++ '.' :: padZeros 3 (natDigits rem))⟩) :=
  ⟨(c8_format_contract (-5)).1 (by decide),
   (c8_format_contract 83456).2 (by decide)⟩

/-- Claim C9: parse performs no semantic check that the seconds field is below
60; any minutes, colon, overlarge two-digit seconds, separator and fraction
parse to the raw arithmetic value, and such inputs do not round trip
textually through format. -/
theorem c9_parse_no_seconds_check :
    (∀ (mins sec : Nat) (sep : Char) (frac : List Char),
      60 ≤ sec → sec ≤ 99 → (sep = ':' ∨ sep = '.') →
      (∀ c ∈ frac, c.isDigit = true) → 1 ≤ frac.length → frac.length ≤ 3 →
      parse_time ⟨natDigits mins ++ ':' :: (natDigits sec ++ sep :: frac)⟩
        = some (mins * 60000 + sec * 1000
            + digitsToNat (frac ++ List.replicate (3 - frac.length) '0')))
    ∧ parse_time ("0:99.000") = some 99000
    ∧ format_time 99000 ≠ ("0:99.000" : String) := by
  refine ⟨?_, by decide, by decide⟩
  intro mins sec sep frac h60 h99 hsep hfrac hfl1 hfl3
  have hseclen : (natDigits sec).length ≤ 2 :=
    natDigits_length_le (by norm_num) (by rw [pow_ten_two]; omega)
  have hsec1 : 1 ≤ (natDigits sec).length := by
    cases hh : natDigits sec with
    | nil => exact absurd hh (natDigits_ne_nil sec)
    | cons a t => simp
  have hmins1 : 1 ≤ (natDigits mins).length := by
    cases hh : natDigits mins with
    | nil => exact absurd hh (natDigits_ne_nil mins)
    | cons a t => simp
  rw [parse_time_shape1 _ _ _ sep hmins1 (fun c hc => natDigits_all_digits hc)
    ⟨hsec1, hseclen⟩ (fun c hc => natDigits_all_digits hc) hsep
    ⟨hfl1, hfl3⟩ hfrac]
  rw [digitsToNat_natDigits, digitsToNat_natDigits]

/-- Claim C9 witness: the overlarge seconds example 0:99.000. -/
theorem c9_parse_no_seconds_check_witness :
    parse_time ⟨natDigits 0 ++ ':' :: (natDigits 99 ++ '.' :: ['0', '0', '0'])⟩
      = some (0 * 60000 + 99 * 1000
          + digitsToNat (['0', '0', '0'] ++
              List.replicate (3 - (['0', '0', '0'] : List Char).length) '0')) :=
  c9_parse_no_seconds_check.1 0 99 '.' ['0', '0', '0']
    (by decide) (by decide) (Or.inr rfl) (by decide) (by decide) (by decide)

/-! ## Store operation lemmas and the remaining claims -/

theorem upsertTime_mem {ts : List TimeEntry} {e x : TimeEntry}
    (h : x ∈ upsertTime ts e) : x ∈ ts ∨ x = e := by
  unfold upsertTime at h
  split at h
  · rcases List.mem_map.mp h with ⟨y, hy, hxy⟩
    by_cases hc : y.discord_id = e.discord_id ∧ y.map_number = e.map_number
    · rw [if_pos hc] at hxy
      exact Or.inr hxy.symm
    · rw [if_neg hc] at hxy
      exact Or.inl (by rw [← hxy]; exact hy)
  · rcases List.mem_append.mp h with hh | hh
    · exact Or.inl hh
    · exact Or.inr (List.mem_singleton.mp hh)

theorem register_times (st : Store) (discord_id tm_username : String) :
    (register st discord_id tm_username).2.times = st.times := by
  unfold register
  split <;> rfl

/-- Claim C4: submit_time fails notRegistered, invalidMap, invalidTimeFormat
and outOfRange exactly under the stated conditions, leaving the store
untouched in every failure case, and only on success upserts the time entry
and reads the new rank back from the updated store. -/
theorem c4_submit_time_contract (st : Store) (id : String) (mapn : Int) (ts : String) :
    (findPlayer st id = none →
      submit_time st id mapn ts = (SubmitResult.notRegistered, st))
    ∧ (∀ pl, findPlayer st id = some pl → mapn ∉ mapNumbers →
        submit_time st id mapn ts = (SubmitResult.invalidMap, st))
    ∧ (∀ pl, findPlayer st id = some pl → mapn ∈ mapNumbers →
        parse_time ts = none →
        submit_time st id mapn ts = (SubmitResult.invalidTimeFormat, st))
    ∧ (∀ pl tms, findPlayer st id = some pl → mapn ∈ mapNumbers →
        parse_time ts = some tms → ¬ (1000 ≤ tms ∧ tms ≤ 600000) →
        submit_time st id mapn ts = (SubmitResult.outOfRange, st))
    ∧ (∀ pl tms, findPlayer st id = some pl → mapn ∈ mapNumbers →
        parse_time ts = some tms → (1000 ≤ tms ∧ tms ≤ 600000) →
        submit_time st id mapn ts =
          (SubmitResult.success (get_player_position
              { st with times := upsertTime st.times ⟨id, mapn, tms⟩ } mapn id),
            { st with times := upsertTime st.times ⟨id, mapn, tms⟩ })) := by
  refine ⟨?_, ?_, ?_, ?_, ?_⟩
  · intro h
    simp [submit_time, h]
  · intro pl hf hm
    simp [submit_time, hf, hm]
  · intro pl hf hm hp
    simp [submit_time, hf, hm, hp]
  · intro pl tms hf hm hp hr
    simp [submit_time, hf, hm, hp, hr]
  · intro pl tms hf hm hp hr
    simp [submit_time, hf, hm, hp, hr]

/-- Claim C4 witness: one concrete run of each branch of the contract. -/
theorem c4_submit_time_contract_witness :
    submit_time (⟨[⟨"A", "Alice"⟩], []⟩ : Store) ("B") 1 ("1000")
      = (SubmitResult.notRegistered, (⟨[⟨"A", "Alice"⟩], []⟩ : Store))
    ∧ submit_time (⟨[⟨"A", "Alice"⟩], []⟩ : Store) ("A") 6 ("1000")
      = (SubmitResult.invalidMap, (⟨[⟨"A", "Alice"⟩], []⟩ : Store))
    ∧ submit_time (⟨[⟨"A", "Alice"⟩], []⟩ : Store) ("A") 1 ("abc")
      = (SubmitResult.invalidTimeFormat, (⟨[⟨"A", "Alice"⟩], []⟩ : Store))
    ∧ submit_time (⟨[⟨"A", "Alice"⟩], []⟩ : Store) ("A") 1 ("999")
      = (SubmitResult.outOfRange, (⟨[⟨"A", "Alice"⟩], []⟩ : Store))
    ∧ submit_time (⟨[⟨"A", "Alice"⟩], []⟩ : Store) ("A") 1 ("600001")
      = (SubmitResult.outOfRange, (⟨[⟨"A", "Alice"⟩], []⟩ : Store))
    ∧ submit_time (⟨[⟨"A", "Alice"⟩], []⟩ : Store) ("A") 1 ("1:23.456")
      = (SubmitResult.success (get_player_position
            { (⟨[⟨"A", "Alice"⟩], []⟩ : Store) with
              times := upsertTime ([] : List TimeEntry) ⟨"A", 1, 83456⟩ } 1 ("A")),
          { (⟨[⟨"A", "Alice"⟩], []⟩ : Store) with
            times := upsertTime ([] : List TimeEntry) ⟨"A", 1, 83456⟩ }) :=
  ⟨(c4_submit_time_contract _ _ _ _).1 (by decide),
   (c4_submit_time_contract _ _ _ _).2.1 ⟨"A", "Alice"⟩ (by decide) (by decide),
   (c4_submit_time_contract _ _ _ _).2.2.1 ⟨"A", "Alice"⟩ (by decide) (by decide) (by decide),
   (c4_submit_time_contract _ _ _ _).2.2.2.1 ⟨"A", "Alice"⟩ 999 (by decide) (by decide)
     (by decide) (by decide),
   (c4_submit_time_contract _ _ _ _).2.2.2.1 ⟨"A", "Alice"⟩ 600001 (by decide) (by decide)
     (by decide) (by decide),
   (c4_submit_time_contract _ _ _ _).2.2.2.2 ⟨"A", "Alice"⟩ 83456 (by decide) (by decide)
     (by decide) (by decide)⟩

/-- Claim C5: in every store state reachable through the write operations,
every stored time entry lies in the validated range between 1000 and 600000
milliseconds; the range check happens before the write, so no out-of-range
value is ever written. -/
theorem c5_time_range_invariant (st : Store) (h : Reachable st) :
    ∀ e ∈ st.times, 1000 ≤ e.time_ms ∧ e.time_ms ≤ 600000 := by
  induction h with
  | init =>
    intro e he
    simp at he
  | reg st0 id un hr ih =>
    intro e he
    rw [register_times] at he
    exact ih e he
  | submit st0 id mn tstr hr ih =>
    intro e he
    rcases hf : findPlayer st0 id with _ | pl
    · rw [show (submit_time st0 id mn tstr).2 = st0 by simp [submit_time, hf]] at he
      exact ih e he
    · by_cases hm : mn ∈ mapNumbers
      · rcases hp : parse_time tstr with _ | tms
        · rw [show (submit_time st0 id mn tstr).2 = st0 by
            simp [submit_time, hf, hm, hp]] at he
          exact ih e he
        · by_cases hrange : 1000 ≤ tms ∧ tms ≤ 600000
          · have hst2 : (submit_time st0 id mn tstr).2
                = { st0 with times := upsertTime st0.times ⟨id, mn, tms⟩ } := by
              simp [submit_time, hf, hm, hp, hrange]
            rw [hst2] at he
            rcases upsertTime_mem he with hold | hnew
            · exact ih e hold
            · rw [hnew]
              exact ⟨hrange.1, hrange.2⟩
          · rw [show (submit_time st0 id mn tstr).2 = st0 by
              simp [submit_time, hf, hm, hp, hrange]] at he
            exact ih e he
      · rw [show (submit_time st0 id mn tstr).2 = st0 by simp [submit_time, hf, hm]] at he
        exact ih e he

/-- Claim C5 witness: a concrete reachable store holding one written entry,
which is inside the range. -/
theorem c5_time_range_invariant_witness :
    Reachable (submit_time ((register ⟨[], []⟩ ("A") ("Alice")).2) ("A") 1 ("1:23.456")).2
    ∧ 1000 ≤ (⟨"A", 1, 83456⟩ : TimeEntry).time_ms
    ∧ (⟨"A", 1, 83456⟩ : TimeEntry).time_ms ≤ 600000 := by
  have hreach : Reachable
      (submit_time ((register ⟨[], []⟩ ("A") ("Alice")).2) ("A") 1 ("1:23.456")).2 :=
    Reachable.submit _ _ _ _ (Reachable.reg _ _ _ Reachable.init)
  refine ⟨hreach, ?_, ?_⟩
  · exact (c5_time_range_invariant _ hreach ⟨"A", 1, 83456⟩ (by decide)).1
  · exact (c5_time_range_invariant _ hreach ⟨"A", 1, 83456⟩ (by decide)).2

/-- Claim C6: the per-map leaderboard drops no entry (it is a permutation of
the joined rows), is sorted ascending by time, keeps equal times in input
order (every equal-time fiber of the output equals that of the input), maps
an empty input to an empty output, and the example of the spec produces ranks
B=1, C=2, A=3 with a 5000 ms gap for A. -/
theorem c6_map_leaderboard :
    (∀ (st : Store) (map_num : Int),
      (get_map_leaderboard st map_num).Perm (mapRows st map_num)
      ∧ (get_map_leaderboard st map_num).Pairwise (fun a b => a.time_ms ≤ b.time_ms)
      ∧ (∀ tv : Nat, (get_map_leaderboard st map_num).filter (fun r => r.time_ms = tv)
          = (mapRows st map_num).filter (fun r => r.time_ms = tv))
      ∧ (get_map_leaderboard st map_num = [] ↔ mapRows st map_num = []))
    ∧ get_map_leaderboard exampleStore 1 =
        [⟨"idB", "B", 85000⟩, ⟨"idC", "C", 85000⟩, ⟨"idA", "A", 90000⟩]
    ∧ get_player_position exampleStore 1 ("idB") = 1
    ∧ get_player_position exampleStore 1 ("idC") = 2
    ∧ get_player_position exampleStore 1 ("idA") = 3
    ∧ gapToLeader (get_map_leaderboard exampleStore 1) 2 = some 5000 := by
  refine ⟨?_, by decide, by decide, by decide, by decide, by decide⟩
  intro st map_num
  refine ⟨ssort_perm lbLt _, ?_, ?_, ?_⟩
  · have hp := ssort_pairwise lbLt_asym lbLt_negtrans (mapRows st map_num)
    exact hp.imp (by
      intro a b hab
      simp [lbLt] at hab
      omega)
  · intro tv
    exact ssort_filter _ (by
      intro a b ha hb
      simp only [decide_eq_true_eq] at ha hb
      simp [lbLt, ha, hb]) _
  · constructor
    · intro h
      have hperm := ssort_perm lbLt (mapRows st map_num)
      rw [show get_map_leaderboard st map_num
          = ssort lbLt (mapRows st map_num) from rfl] at h
      rw [h] at hperm
      exact hperm.symm.eq_nil
    · intro h
      show ssort lbLt (mapRows st map_num) = []
      rw [h]
      rfl

/-- Claim C7: the overall standings contain one row per registered player (a
permutation of the per-player rows), sorted descending by total points with
ties broken descending by maps completed and further ties kept in input
order; each row counts the maps the player has an entry for and sums the
points for the rank of the player on each such map. -/
theorem c7_overall_standings :
    (∀ st : Store,
      (get_overall_standings st).Perm (standingRows st)
      ∧ (get_overall_standings st).Pairwise (fun a b =>
          b.points < a.points ∨ (a.points = b.points ∧ b.maps_completed ≤ a.maps_completed))
      ∧ (∀ k : Int × Nat,
          (get_overall_standings st).filter (fun r => (r.points, r.maps_completed) = k)
            = (standingRows st).filter (fun r => (r.points, r.maps_completed) = k))
      ∧ (∀ p ∈ st.players,
          (standingOf st p).points
            = ((st.times.filter (fun e => e.discord_id = p.discord_id)).map
                (fun e => pointsOfPos (get_player_position st e.map_number p.discord_id))).sum
          ∧ (standingOf st p).maps_completed
            = (st.times.filter (fun e => e.discord_id = p.discord_id)).length
          ∧ (UniqKeys st.times →
              (standingOf st p).maps_completed
                = (((st.times.filter (fun e => e.discord_id = p.discord_id)).map
                    (fun e => e.map_number)).dedup).length
              ∧ (standingOf st p).points
                = ((((st.times.filter (fun e => e.discord_id = p.discord_id)).map
                    (fun e => e.map_number)).dedup).map
                      (fun mn => pointsOfPos (get_player_position st mn p.discord_id))).sum)))
    ∧ get_overall_standings exampleStore2 =
        [⟨"p1", "One", 118, 5⟩, ⟨"p2", "Two", 25, 1⟩] := by
  refine ⟨?_, by decide⟩
  intro st
  refine ⟨ssort_perm stLt _, ?_, ?_, ?_⟩
  · have hp := ssort_pairwise stLt_asym stLt_negtrans (standingRows st)
    exact hp.imp (by
      intro a b hab
      simp [stLt] at hab
      omega)
  · intro k
    exact ssort_filter _ (by
      intro a b ha hb
      simp only [decide_eq_true_eq] at ha hb
      have h1 : a.points = b.points ∧ a.maps_completed = b.maps_completed := by
        have := ha.trans hb.symm
        simpa [Prod.ext_iff] using this
      simp [stLt, h1.1, h1.2]) _
  · intro p hp
    have hfil : (st.times.filter (fun e => e.discord_id = p.discord_id)).Sublist st.times :=
      List.filter_sublist _
    refine ⟨by simp [standingOf], by simp [standingOf], ?_⟩
    intro hu
    have hkeys : ((st.times.filter (fun e => e.discord_id = p.discord_id)).map
        (fun e => (e.discord_id, e.map_number))).Nodup :=
      List.Nodup.sublist (List.Sublist.map _ hfil) hu
    have hpairs := List.pairwise_map.mp hkeys
    have hnodupmn : ((st.times.filter (fun e => e.discord_id = p.discord_id)).map
        (fun e => e.map_number)).Nodup := by
      apply List.pairwise_map.mpr
      refine List.Pairwise.imp_of_mem ?_ hpairs
      intro a b ha hb hne heq
      apply hne
      have hida : a.discord_id = p.discord_id := by
        have hm := List.mem_filter.mp ha
        simpa using hm.2
      have hidb : b.discord_id = p.discord_id := by
        have hm := List.mem_filter.mp hb
        simpa using hm.2
      rw [hida, hidb, heq]
    have hdedup := List.dedup_eq_self.mpr hnodupmn
    constructor
    · rw [hdedup, List.length_map]
      simp [standingOf]
    · rw [hdedup, List.map_map]
      simp [standingOf]
      rfl

/-- Claim C7 witness: the standings example store satisfies the unique-key
hypothesis and the per-player clauses at the first player. -/
theorem c7_overall_standings_witness :
    UniqKeys exampleStore2.times
    ∧ (standingOf exampleStore2 (⟨"p1", "One"⟩ : Player)).maps_completed
        = (((exampleStore2.times.filter
            (fun e => e.discord_id = (⟨"p1", "One"⟩ : Player).discord_id)).map
              (fun e => e.map_number)).dedup).length :=
  ⟨by decide,
   (((c7_overall_standings.1 exampleStore2).2.2.2 ⟨"p1", "One"⟩ (by decide)).2.2
     (by decide)).1⟩
